import Mathlib

/-!
Shallow embedding of `monai/transforms/spatial/functional.py` (lazy spatial
transform builders) together with models of the helpers it imports from
`monai.transforms.lazy.functional`, `monai.transforms.utils` and
`monai.utils`, which are not part of the provided source and are therefore
modelled from the specification.

Conventions of the embedding:
* machine floats become exact rationals (`ℚ`); an angle is represented by the
  exact pair of its cosine and sine;
* tensor shapes become `List ℤ` (channel-first, `[C, d1, ..., dK]`);
* a Python `raise` becomes an error value; a builder returns `BuildResult`,
  whose error constructor carries the image state at the moment of the raise,
  so that statements about mutation-before-raise are expressible;
* `len(shape) - 1` is computed in `ℤ`, matching Python semantics on empty
  shapes.
-/

namespace MSF

/-- Error kinds. The source raises `ValueError` for both parameter and shape
problems; the spec splits these into `ConfigurationError` (invalid parameters)
and `ShapeError` (shape or matrix problems). Dimension mismatches raised by
the tensor library inside a matrix multiply are modelled as runtime errors. -/
inductive Err where
  | configuration (msg : String)
  | shape (msg : String)
  | runtime (msg : String)
deriving DecidableEq

/-- Element dtypes; the numeric content of a dtype is irrelevant here. -/
inductive DType where
  | float32
  | float64
  | int64
deriving DecidableEq

/-- Interpolation mode names. MONAI mode enums are string enums; the union of
the `InterpolateMode` and `GridSampleMode` string values is modelled as one
inductive, matching the string-valued comparison done by `look_up_option`. -/
inductive ModeStr where
  | nearest
  | nearestExact
  | linear
  | bilinear
  | bicubic
  | trilinear
  | area
deriving DecidableEq

/-- Padding mode names: union of the `NumpyPadMode` and `GridSamplePadMode`
string values used by this file. -/
inductive PadStr where
  | zeros
  | border
  | reflection
  | edge
  | wrap
deriving DecidableEq

/-- A Python parameter of type `Union[Sequence a, a]`. -/
inductive ValOrSeq (α : Type) where
  | one (a : α)
  | many (l : List α)
deriving DecidableEq

/-- An angle in radians, represented exactly by its cosine and sine: the
trigonometric content of `compatible_rotate` is kept exact instead of
floating point. -/
structure Angle where
  c : ℚ
  s : ℚ
deriving DecidableEq

abbrev Vec := List ℚ

abbrev Mat := List Vec

/-- Dot product of two coordinate rows (truncating, like `zip`). -/
def dot (a b : Vec) : ℚ :=
  (List.zipWith (fun x y => x * y) a b).sum

/-- Matrix-vector product in the tensor library (`matrix @ e`); fails with a
runtime error when the sizes do not match, as `torch.matmul` does. -/
def matVec (m : Mat) (v : Vec) : Except Err Vec :=
  if m.all (fun row => row.length == v.length) then
    Except.ok (m.map (fun row => dot row v))
  else
    Except.error (Err.runtime "matrix and vector sizes do not match")

/-- Total matrix product used only to assemble composite transforms. -/
def matMulT (a b : Mat) : Mat :=
  a.map (fun row => b.transpose.map (fun col => dot row col))

/-- Corner points of the box `[0,q1] × ... × [0,qK]` (2^K points), most
significant coordinate first, zero corner first. -/
def cornersQ : List ℚ → List Vec
  | [] => [[]]
  | q :: qs => (cornersQ qs).map (fun c => (0 : ℚ) :: c) ++ (cornersQ qs).map (fun c => q :: c)

/-- Corner points in homogeneous coordinates (trailing 1 appended). -/
def hcorners (qs : List ℚ) : List Vec :=
  (cornersQ qs).map (fun c => c ++ [(1 : ℚ)])

/-- Modelled from the spec: `extents_from_shape(shape)` (from
`monai.transforms.lazy.functional`, not in the provided source) returns the
set of homogeneous corner coordinates of the box `[0,d1] × ... × [0,dK]` for a
channel-first shape `[C, d1, ..., dK]`: 2^K points, each a (K+1)-vector with a
trailing 1. -/
def extents_from_shape (shape : List ℤ) : List Vec :=
  hcorners ((shape.drop 1).map (fun d : ℤ => (d : ℚ)))

/-- Modelled from the spec: `shape_from_extents(original_shape, extents)`
(from `monai.transforms.lazy.functional`, not in the provided source) returns
`[C, d1, ..., dK]` where each `di = ceil(max_i - min_i)` over the transformed
extents along axis `i`, with the channel count `C` of the original shape
preserved; it fails with a shape error when the extents do not have the
expected dimensionality (each must be a `(K+1)`-vector). -/
def shape_from_extents (src_shape : List ℤ) (extents : List Vec) : Except Err (List ℤ) :=
  match src_shape with
  | [] => Except.error (Err.shape "src shape must not be empty")
  | c :: rest =>
    match extents with
    | [] => Except.error (Err.shape "extents must not be empty")
    | e :: es =>
      if (e :: es).all (fun x => x.length == rest.length + 1) then
        let mins := es.foldl (List.zipWith min) e
        let maxs := es.foldl (List.zipWith max) e
        Except.ok (c :: (List.zipWith (fun a b => Int.ceil (b - a)) mins maxs).take rest.length)
      else
        Except.error (Err.shape "extents do not have the expected dimensionality")

/-- Modelled from the spec: `is_matrix_shaped(matrix)` (from
`monai.transforms.lazy.functional`, not in the provided source) checks for "a
valid 2d or 3d homogenous matrix shape", i.e. 3x3 or 4x4, as stated by the
error message in `transform_shape`; it does not look at any image shape. -/
def is_matrix_shaped (m : Mat) : Bool :=
  (m.length == 3 && m.all (fun r => r.length == 3)) ||
    (m.length == 4 && m.all (fun r => r.length == 4))

/-- Source `transform_shape(input_shape, matrix)`: validates the matrix shape,
transforms every corner extent of `input_shape`, and rebuilds a shape. -/
def transform_shape (input_shape : List ℤ) (matrix : Mat) : Except Err (List ℤ) :=
  if is_matrix_shaped matrix then
    match (extents_from_shape input_shape).mapM (matVec matrix) with
    | Except.error e => Except.error e
    | Except.ok im_extents => shape_from_extents input_shape im_extents
  else
    Except.error (Err.shape "matrix must have a valid 2d or 3d homogenous matrix shape")

/-- Homogeneous diagonal matrix `diag(f1, ..., fn, 1)`. -/
def diagHom : List ℚ → Mat
  | [] => [[1]]
  | f :: fs => (f :: List.replicate (fs.length + 1) 0) :: (diagHom fs).map (fun r => (0 : ℚ) :: r)

/-- Homogeneous translation matrix: identity with the translation vector as
the last column. -/
def translHom : List ℚ → Mat
  | [] => [[1]]
  | x :: xs => ((1 : ℚ) :: List.replicate xs.length 0 ++ [x]) :: (translHom xs).map (fun r => (0 : ℚ) :: r)

/-- Homogeneous 2D rotation matrix from an exact angle. -/
def rot2Hom (a : Angle) : Mat :=
  [[a.c, -a.s, 0], [a.s, a.c, 0], [0, 0, 1]]

/-- Homogeneous 3D rotation about the first axis. -/
def rotXHom (a : Angle) : Mat :=
  [[1, 0, 0, 0], [0, a.c, -a.s, 0], [0, a.s, a.c, 0], [0, 0, 0, 1]]

/-- Homogeneous 3D rotation about the second axis. -/
def rotYHom (a : Angle) : Mat :=
  [[a.c, 0, a.s, 0], [0, 1, 0, 0], [-a.s, 0, a.c, 0], [0, 0, 0, 1]]

/-- Homogeneous 3D rotation about the third axis. -/
def rotZHom (a : Angle) : Mat :=
  [[a.c, -a.s, 0, 0], [a.s, a.c, 0, 0], [0, 0, 1, 0], [0, 0, 0, 1]]

/-- Modelled from the spec: a 3D rotation takes three angles, one per axis,
composed in a fixed axis order. -/
def rot3Hom (a b c : Angle) : Mat :=
  matMulT (rotZHom c) (matMulT (rotYHom b) (rotXHom a))

/-- Homogeneous k*90-degree rotation in the plane of spatial axes `a` and `b`
of a K-dimensional image (a (K+1)x(K+1) matrix with integer entries). -/
def rot90Hom (k : ℕ) (a b : ℕ) (kq : ℤ) : Mat :=
  let km := ((kq % 4) + 4) % 4
  let cs : ℚ × ℚ :=
    if km = 0 then (1, 0) else if km = 1 then (0, 1) else if km = 2 then (-1, 0) else (0, -1)
  (List.range (k + 1)).map (fun i =>
    (List.range (k + 1)).map (fun j =>
      if i = a ∧ j = a then cs.1
      else if i = a ∧ j = b then -cs.2
      else if i = b ∧ j = a then cs.2
      else if i = b ∧ j = b then cs.1
      else if i = j then 1 else 0))

/-- Metadata mapping attached to a pending operation; the source builds it as
a dict whose keys differ per builder, modelled as optional fields. Every
builder in the source stores `shape_override`. -/
structure Metadata where
  shape_override : List ℤ
  mode : Option ModeStr := none
  padding_mode : Option PadStr := none
  dtype : Option DType := none
  align_corners : Option Bool := none
  angle : Option (ValOrSeq Angle) := none
  keep_size : Option Bool := none
  factor : Option (List ℚ) := none
  translation : Option (List ℚ) := none
  spatial_axis : Option (List ℕ) := none
  spatial_axes : Option (List ℕ) := none
  k : Option ℤ := none
  spatial_size : Option (ValOrSeq ℤ) := none
  size_mode : Option String := none
  anti_aliasing : Option Bool := none
  anti_aliasing_sigma : Option (ValOrSeq ℚ) := none
deriving DecidableEq

/-- The pending-operation record: a homogeneous transform plus metadata
(`MetaMatrix` from `monai.transforms.lazy.functional`). -/
structure MetaMatrix where
  matrix : Mat
  metadata : Metadata
deriving DecidableEq

/-- A plain tensor: shape, dtype and an abstract data buffer. -/
structure Tensor where
  shape : List ℤ
  dtype : DType
  data : List ℚ
deriving DecidableEq

/-- A metadata-tracked tensor: a tensor together with its pending-operation
log (`MetaTensor` from `monai.data.meta_tensor`). -/
structure MetaTensor where
  base : Tensor
  pending_operations : List MetaMatrix
deriving DecidableEq

/-- An image value handed to a builder: either tracked or plain. -/
inductive Image where
  | meta (m : MetaTensor)
  | plain (t : Tensor)
deriving DecidableEq

/-- Underlying tensor of an image value. -/
def tensor_of : Image → Tensor
  | Image.meta m => m.base
  | Image.plain t => t

/-- Result of `lazily_apply_op`: a `MetaTensor` when passed a tracked value,
otherwise a pair of a tensor and an optional unapplied record. -/
inductive LazyResult where
  | metaR (m : MetaTensor)
  | plainR (t : Tensor) (op : Option MetaMatrix)
deriving DecidableEq

/-- Result of a builder call. A Python `raise` is modelled by `err`, which
carries the image state at the moment of the raise; the source validates
before it mutates, so an unchanged state in `err` is the error-atomicity
property claimed by the spec. -/
inductive BuildResult where
  | ok (r : LazyResult)
  | err (state : Image) (e : Err)
deriving DecidableEq

/-- Whether a builder call completed without raising. -/
def BuildResult.isOk : BuildResult → Bool
  | BuildResult.ok _ => true
  | BuildResult.err _ _ => false

/-- Modelled from the spec: `convert_to_tensor(img, track_meta=...)` (from
`monai.utils`, not in the provided source) is, for inputs that are already
tensors or tracked tensors, the identity on the handle; trackedness is kept. -/
def convert_to_tensor (img : Image) : Image := img

/-- Modelled from the spec: `MetaTensor.peek_pending_shape()` returns the
shape predicted by the currently queued operations without applying them:
every record stores its predicted output shape in `shape_override`, so the
prediction after all queued operations is the `shape_override` of the most
recently queued record. -/
def MetaTensor.peek_pending_shape (m : MetaTensor) : List ℤ :=
  match m.pending_operations.getLast? with
  | some op => op.metadata.shape_override
  | none => m.base.shape

/-- Modelled from the spec: `apply_transforms(tensor)` on a tracked tensor
composes and applies every pending operation in log order and returns the
concrete image with an empty pending-operation log; the pixel resampling
kernel is external to this core, so the data buffer is carried through and
the concrete shape becomes the predicted pending shape. -/
def apply_transforms_meta (m : MetaTensor) : MetaTensor :=
  { base := { shape := m.peek_pending_shape, dtype := m.base.dtype, data := m.base.data },
    pending_operations := [] }

/-- Modelled from the spec: `apply_transforms(tensor, ops)` on a plain tensor
composes the given operations and applies them, producing a tensor of the
predicted output shape (resampling itself is external to this core). -/
def apply_transforms_pending (t : Tensor) (ops : List MetaMatrix) : Tensor :=
  match ops.getLast? with
  | some op => { shape := op.metadata.shape_override, dtype := t.dtype, data := t.data }
  | none => t

/-- Source `lazily_apply_op(tensor, op, lazy_evaluation)`: the lazy
dispatcher. A tracked value gets the record pushed onto its log and is then
either returned as is (deferred) or drained (eager); a plain value is either
returned unchanged together with the unapplied record (deferred) or applied
with no leftover record (eager). -/
def lazily_apply_op (tensor : Image) (op : MetaMatrix) (lazy_evaluation : Bool) : LazyResult :=
  match tensor with
  | Image.meta m =>
    let m2 : MetaTensor := { m with pending_operations := m.pending_operations ++ [op] }
    if lazy_evaluation = false then
      LazyResult.metaR (apply_transforms_meta m2)
    else
      LazyResult.metaR m2
  | Image.plain t =>
    if lazy_evaluation = false then
      LazyResult.plainR (apply_transforms_pending t [op]) none
    else
      LazyResult.plainR t (some op)

/-- The input-shape resolution block that every builder in the source repeats
verbatim: an explicit `shape_override` wins; otherwise a tracked image with a
nonempty pending log contributes its pending shape; otherwise the concrete
shape is used. -/
def resolved_input_shape (shape_override : Option (List ℤ)) (img : Image) : List ℤ :=
  match shape_override with
  | some s => s
  | none =>
    match img with
    | Image.meta m =>
      if 0 < m.pending_operations.length then m.peek_pending_shape else m.base.shape
    | Image.plain t => t.shape

/-- The input-shape resolution precedence exactly as the spec words it, for
comparison with the source: explicit override first, then the shape predicted
by pending operations, then the current concrete shape. -/
def spec_resolved_input_shape (shape_override : Option (List ℤ)) (img : Image) : List ℤ :=
  match shape_override with
  | some s => s
  | none =>
    match img with
    | Image.meta m =>
      if m.pending_operations = [] then m.base.shape else m.peek_pending_shape
    | Image.plain t => t.shape

/-- Modelled from the spec: `ensure_tuple_rep(val, n)` (from `monai.utils`,
not in the provided source) replicates a scalar `n` times and checks a
sequence for length `n`, raising otherwise. -/
def ensure_tuple_rep {α : Type} (v : ValOrSeq α) (n : ℕ) : Except Err (List α) :=
  match v with
  | ValOrSeq.one a => Except.ok (List.replicate n a)
  | ValOrSeq.many l =>
    if l.length == n then Except.ok l
    else Except.error (Err.configuration "sequence must have the requested length")

/-- Modelled from the spec: `ensure_tuple(val)` wraps a scalar into a
one-element tuple and keeps a sequence. -/
def ensure_tuple {α : Type} (v : ValOrSeq α) : List α :=
  match v with
  | ValOrSeq.one a => [a]
  | ValOrSeq.many l => l

/-- Modelled from the spec: `ensure_tuple_size(tup, dim, pad_val)` truncates
or right-pads to length `dim`. -/
def ensure_tuple_size (l : List ℤ) (dim : ℕ) (pad_val : ℤ) : List ℤ :=
  l.take dim ++ List.replicate (dim - l.length) pad_val

/-- Modelled from the spec: `fall_back_tuple(user, default)` replicates or
length-checks the user value against the default length, then falls back to
the default entry wherever the user entry is not positive. -/
def fall_back_tuple (user : ValOrSeq ℤ) (default : List ℤ) : Except Err (List ℤ) :=
  match ensure_tuple_rep user default.length with
  | Except.error e => Except.error e
  | Except.ok rep =>
    Except.ok (List.zipWith (fun u d => if 0 < u then u else d) rep default)

/-- Modelled from the spec: `look_up_option(mode, GridSampleMode)` matches the
string value of the given mode against the `GridSampleMode` members
(`nearest`, `bilinear`, `bicubic`), raising otherwise. -/
def look_up_gsm (m : ModeStr) : Except Err ModeStr :=
  match m with
  | ModeStr.nearest => Except.ok ModeStr.nearest
  | ModeStr.bilinear => Except.ok ModeStr.bilinear
  | ModeStr.bicubic => Except.ok ModeStr.bicubic
  | _ => Except.error (Err.configuration "Unsupported option")

/-- Modelled from the spec: `look_up_option(padding_mode, GridSamplePadMode)`
matches against `zeros`, `border`, `reflection`, raising otherwise. -/
def look_up_gspm (p : PadStr) : Except Err PadStr :=
  match p with
  | PadStr.zeros => Except.ok PadStr.zeros
  | PadStr.border => Except.ok PadStr.border
  | PadStr.reflection => Except.ok PadStr.reflection
  | _ => Except.error (Err.configuration "Unsupported option")

/-- Modelled from the spec: `get_equivalent_dtype` converts between dtype
representations; on this model it is the identity. -/
def get_equivalent_dtype (d : DType) : DType := d

/-- Python round (round-half-to-even) on an exact rational. -/
def pythonRound (q : ℚ) : ℤ :=
  let f := Int.floor q
  let r := q - (f : ℚ)
  if r < 1 / 2 then f
  else if 1 / 2 < r then f + 1
  else if f % 2 = 0 then f else f + 1

/-- Python `max` over a sequence of integers; the empty case (where Python
raises) is totalized with 0 and is unreachable under the hypotheses of the
theorems below, which require a nonempty spatial shape. -/
def listMax : List ℤ → ℤ
  | [] => 0
  | x :: xs => xs.foldl max x

/-- Modelled from the spec: `compatible_scale(img, factors)` (from
`monai.transforms.utils`, not in the provided source) builds the homogeneous
scale transform from the per-axis factors. -/
def compatible_scale (_t : Tensor) (fs : List ℚ) : Mat := diagHom fs

/-- Modelled from the spec: `compatible_translate(img, translation)` builds
the homogeneous translation transform. -/
def compatible_translate (_t : Tensor) (translation : List ℚ) : Mat := translHom translation

/-- Modelled from the spec: `compatible_flip(img, spatial_axes)` builds the
homogeneous flip transform (diagonal -1 on each flipped spatial axis) over
the spatial dimensionality of the image, raising when an axis is out of
range. -/
def compatible_flip (t : Tensor) (axes : List ℕ) : Except Err Mat :=
  let k := t.shape.length - 1
  if axes.all (fun a => decide (a < k)) then
    Except.ok (diagHom ((List.range k).map (fun i => if i ∈ axes then (-1 : ℚ) else 1)))
  else
    Except.error (Err.configuration "spatial axis out of range")

/-- Modelled from the spec: `compatible_rotate(img, angles)` builds the
homogeneous rotation from one angle (2D) or three angles composed in a fixed
axis order (3D). -/
def compatible_rotate (_img : Image) (angles : List Angle) : Except Err Mat :=
  match angles with
  | [a] => Except.ok (rot2Hom a)
  | [a, b, c] => Except.ok (rot3Hom a b c)
  | _ => Except.error (Err.configuration "angle must have 1 or 3 values")

/-- Modelled from the spec: `compatible_rotate_90(img, spatial_axes, k)`
builds the homogeneous k*90-degree rotation in the plane of the two given
spatial axes, raising when the axes are not two distinct in-range axes. -/
def compatible_rotate_90 (t : Tensor) (axes : List ℕ) (kq : ℤ) : Except Err Mat :=
  let kdim := t.shape.length - 1
  match axes with
  | [a, b] =>
    if a ≠ b ∧ a < kdim ∧ b < kdim then Except.ok (rot90Hom kdim a b kq)
    else Except.error (Err.configuration "invalid spatial axes")
  | _ => Except.error (Err.configuration "spatial_axes must be a tuple of two integers")

/-- Modelled from the spec: `apply_align_corners(transform, shape, builder)`
rewrites a transform for the corner-alignment sampling convention by
composing it with a per-axis scale computed from the target output shape. -/
def apply_align_corners (m : Mat) (spatial_shape : List ℤ) (scale_builder : List ℚ → Mat) : Mat :=
  matMulT (scale_builder (spatial_shape.map (fun d : ℤ => ((d : ℚ) - 1) / (d : ℚ)))) m

/-- Modelled from the spec: `Tensor.reshape`, raising when the element counts
do not match. -/
def Tensor.reshape (t : Tensor) (s : List ℤ) : Except Err Tensor :=
  if t.shape.prod == s.prod then Except.ok { t with shape := s }
  else Except.error (Err.runtime "cannot reshape tensor into the requested shape")

/-- Reshape on an image handle, preserving trackedness. -/
def Image.reshape (img : Image) (s : List ℤ) : Except Err Image :=
  match img with
  | Image.meta m =>
    match m.base.reshape s with
    | Except.error e => Except.error e
    | Except.ok t => Except.ok (Image.meta { m with base := t })
  | Image.plain t =>
    match t.reshape s with
    | Except.error e => Except.error e
    | Except.ok t2 => Except.ok (Image.plain t2)

/-- Source `flip(img, spatial_axis, shape_override, lazy_evaluation)`:
resolves the input shape, defaults the spatial axes to every spatial axis of
the resolved shape, builds the flip transform, transforms the corner extents
and queues the record. -/
def flip (img : Image) (spatial_axis : Option (List ℕ)) (shape_override : Option (List ℤ))
    (lazy_evaluation : Bool) : BuildResult :=
  let img_ := convert_to_tensor img
  let input_shape := resolved_input_shape shape_override img_
  let spatial_axis_ :=
    match spatial_axis with
    | none => List.range (input_shape.length - 1)
    | some axes => axes
  match compatible_flip (tensor_of img_) spatial_axis_ with
  | Except.error e => BuildResult.err img_ e
  | Except.ok transform =>
    match (extents_from_shape input_shape).mapM (matVec transform) with
    | Except.error e => BuildResult.err img_ e
    | Except.ok im_extents =>
      match shape_from_extents input_shape im_extents with
      | Except.error e => BuildResult.err img_ e
      | Except.ok output_shape =>
        BuildResult.ok (lazily_apply_op img_
          (MetaMatrix.mk transform
            { shape_override := output_shape, spatial_axis := some spatial_axis_ })
          lazy_evaluation)

/-- Source `resize(img, spatial_size, size_mode, mode, align_corners,
anti_aliasing, anti_aliasing_sigma, dtype, shape_override, lazy_evaluation)`:
"all" mode pads or rejects the requested size against the input rank and
falls back per axis; "longest" mode requires an integer target and scales
every axis by `target / max(current spatial extents)` with Python rounding. -/
def resize (img : Image) (spatial_size : ValOrSeq ℤ) (size_mode : String) (mode : ModeStr)
    (align_corners : Bool) (anti_aliasing : Option Bool) (anti_aliasing_sigma : Option (ValOrSeq ℚ))
    (dtype : Option DType) (shape_override : Option (List ℤ)) (lazy_evaluation : Bool) :
    BuildResult :=
  let img_ := convert_to_tensor img
  let input_shape0 := resolved_input_shape shape_override img
  let input_ndim : ℤ := (input_shape0.length : ℤ) - 1
  let branch : Except Err (List ℤ × List ℤ × Image) :=
    if size_mode == "all" then
      let output_ndim := (ensure_tuple spatial_size).length
      if input_ndim < (output_ndim : ℤ) then
        let input_shape := ensure_tuple_size input_shape0 (output_ndim + 1) 1
        match img.reshape input_shape with
        | Except.error e => Except.error e
        | Except.ok img2 =>
          match fall_back_tuple spatial_size (input_shape.drop 1) with
          | Except.error e => Except.error e
          | Except.ok ss => Except.ok (input_shape, ss, img2)
      else if (output_ndim : ℤ) < input_ndim then
        Except.error (Err.configuration
          "len of spatial_size must be greater or equal to img spatial dimensions")
      else
        match fall_back_tuple spatial_size (input_shape0.drop 1) with
        | Except.error e => Except.error e
        | Except.ok ss => Except.ok (input_shape0, ss, img)
    else
      let img_size := input_shape0.drop 1
      match spatial_size with
      | ValOrSeq.many _ =>
        Except.error (Err.configuration
          "spatial_size must be an int number if size_mode is longest")
      | ValOrSeq.one target =>
        let scale : ℚ := (target : ℚ) / (listMax img_size : ℚ)
        Except.ok (input_shape0, img_size.map (fun s : ℤ => pythonRound ((s : ℚ) * scale)), img)
  match branch with
  | Except.error e => BuildResult.err img_ e
  | Except.ok (input_shape, spatial_size_, img2) =>
    match look_up_gsm mode with
    | Except.error e => BuildResult.err img_ e
    | Except.ok mode_ =>
      let dtype_ := get_equivalent_dtype (dtype.getD (tensor_of img2).dtype)
      let zoom_factors :=
        List.zipWith (fun (i j : ℤ) => (i : ℚ) / (j : ℚ)) spatial_size_ (input_shape.drop 1)
      let transform := compatible_scale (tensor_of img_) zoom_factors
      match transform_shape input_shape transform with
      | Except.error e => BuildResult.err img_ e
      | Except.ok output_shape =>
        BuildResult.ok (lazily_apply_op img_
          (MetaMatrix.mk transform
            { shape_override := output_shape, spatial_size := some spatial_size,
              size_mode := some size_mode, mode := some mode_,
              align_corners := some align_corners, anti_aliasing := anti_aliasing,
              anti_aliasing_sigma := anti_aliasing_sigma, dtype := some dtype_ })
          lazy_evaluation)

/-- Source `rotate(img, angle, keep_size, mode, padding_mode, align_corners,
dtype, shape_override, lazy_evaluation)`: looks up the modes, resolves the
input shape, rejects spatial dimensionality other than 2 or 3, builds the
rotation and computes the output shape; note the source computes
`transform_shape` when `keep_size` is True and keeps the input shape when
`keep_size` is False. -/
def rotate (img : Image) (angle : ValOrSeq Angle) (keep_size : Bool) (mode : ModeStr)
    (padding_mode : PadStr) (align_corners : Bool) (dtype : Option DType)
    (shape_override : Option (List ℤ)) (lazy_evaluation : Bool) : BuildResult :=
  let img_ := convert_to_tensor img
  match look_up_gsm mode with
  | Except.error e => BuildResult.err img_ e
  | Except.ok mode_ =>
    match look_up_gspm padding_mode with
    | Except.error e => BuildResult.err img_ e
    | Except.ok padding_mode_ =>
      let dtype_ := get_equivalent_dtype (dtype.getD (tensor_of img).dtype)
      let input_shape := resolved_input_shape shape_override img
      let input_ndim : ℤ := (input_shape.length : ℤ) - 1
      if input_ndim ≠ 2 ∧ input_ndim ≠ 3 then
        BuildResult.err img_ (Err.configuration
          "Unsupported image dimension, available options are 2 and 3")
      else
        match ensure_tuple_rep angle (if input_ndim = 2 then 1 else 3) with
        | Except.error e => BuildResult.err img_ e
        | Except.ok angle_ =>
          match compatible_rotate img angle_ with
          | Except.error e => BuildResult.err img_ e
          | Except.ok rotate_tx =>
            let output_shape_e :=
              if keep_size = false then Except.ok input_shape
              else transform_shape input_shape rotate_tx
            match output_shape_e with
            | Except.error e => BuildResult.err img_ e
            | Except.ok output_shape =>
              let transform :=
                if align_corners = true then
                  apply_align_corners rotate_tx (output_shape.drop 1)
                    (fun sf => compatible_scale (tensor_of img_) sf)
                else rotate_tx
              BuildResult.ok (lazily_apply_op img_
                (MetaMatrix.mk transform
                  { shape_override := output_shape, angle := some angle,
                    keep_size := some keep_size, mode := some mode_,
                    padding_mode := some padding_mode_,
                    align_corners := some align_corners, dtype := some dtype_ })
                lazy_evaluation)

/-- Source `zoom(img, factor, mode, padding_mode, align_corners, keep_size,
dtype, shape_override, lazy_evaluation)`: stores the reciprocal of each zoom
factor as the scale, and (like `rotate`) computes `transform_shape` when
`keep_size` is True, keeping the input shape when `keep_size` is False. -/
def zoom (img : Image) (factor : ValOrSeq ℚ) (mode : ModeStr) (padding_mode : PadStr)
    (align_corners : Bool) (keep_size : Bool) (dtype : Option DType)
    (shape_override : Option (List ℤ)) (lazy_evaluation : Bool) : BuildResult :=
  let img_ := convert_to_tensor img
  let input_shape := resolved_input_shape shape_override img
  let input_ndim : ℤ := (input_shape.length : ℤ) - 1
  match ensure_tuple_rep factor input_ndim.toNat with
  | Except.error e => BuildResult.err img_ e
  | Except.ok factors0 =>
    let zoom_factors := factors0.map (fun f => 1 / f)
    match look_up_gsm mode with
    | Except.error e => BuildResult.err img_ e
    | Except.ok mode_ =>
      match look_up_gspm padding_mode with
      | Except.error e => BuildResult.err img_ e
      | Except.ok padding_mode_ =>
        let dtype_ := get_equivalent_dtype (dtype.getD (tensor_of img_).dtype)
        let transform := compatible_scale (tensor_of img_) zoom_factors
        let output_shape_e :=
          if keep_size = false then Except.ok input_shape
          else transform_shape input_shape transform
        match output_shape_e with
        | Except.error e => BuildResult.err img_ e
        | Except.ok output_shape0 =>
          let step2 : Except Err (Mat × List ℤ) :=
            if align_corners = true then
              let transform2 :=
                apply_align_corners transform (output_shape0.drop 1)
                  (fun sf => compatible_scale (tensor_of img_) sf)
              match transform_shape output_shape0 transform with
              | Except.error e => Except.error e
              | Except.ok output_shape2 => Except.ok (transform2, output_shape2)
            else Except.ok (transform, output_shape0)
          match step2 with
          | Except.error e => BuildResult.err img_ e
          | Except.ok (transform_, output_shape) =>
            BuildResult.ok (lazily_apply_op img_
              (MetaMatrix.mk transform_
                { shape_override := output_shape, factor := some zoom_factors,
                  mode := some mode_, padding_mode := some padding_mode_,
                  align_corners := some align_corners, keep_size := some keep_size,
                  dtype := some dtype_ })
              lazy_evaluation)

/-- Source `rotate90(img, k, spatial_axes, shape_override, lazy_evaluation)`:
rejects an axis pair that does not have exactly two entries, then queues a
record whose `shape_override` is always the resolved input shape. -/
def rotate90 (img : Image) (k : ℤ) (spatial_axes : List ℕ) (shape_override : Option (List ℤ))
    (lazy_evaluation : Bool) : BuildResult :=
  if spatial_axes.length ≠ 2 then
    BuildResult.err img (Err.configuration "spatial_axes must be a tuple of two integers")
  else
    let img_ := convert_to_tensor img
    let input_shape := resolved_input_shape shape_override img
    match compatible_rotate_90 (tensor_of img_) spatial_axes k with
    | Except.error e => BuildResult.err img_ e
    | Except.ok transform =>
      BuildResult.ok (lazily_apply_op img_
        (MetaMatrix.mk transform
          { shape_override := input_shape, k := some k, spatial_axes := some spatial_axes })
        lazy_evaluation)

/-- Source `translate(img, translation, mode, padding_mode, dtype,
shape_override, lazy_evaluation)`: rejects a translation vector whose length
differs from the resolved spatial dimensionality, then queues a record whose
`shape_override` is the resolved input shape (translation preserves shape);
the mode and padding mode are stored without lookup. -/
def translate (img : Image) (translation : List ℚ) (mode : ModeStr) (padding_mode : PadStr)
    (dtype : Option DType) (shape_override : Option (List ℤ)) (lazy_evaluation : Bool) :
    BuildResult :=
  let img_ := convert_to_tensor img
  let input_shape := resolved_input_shape shape_override img
  let dtype_ := dtype.getD (tensor_of img_).dtype
  let input_ndim : ℤ := (input_shape.length : ℤ) - 1
  if (translation.length : ℤ) ≠ input_ndim then
    BuildResult.err img_ (Err.configuration
      "translate length must be equal to img spatial dimensions")
  else
    let transform := compatible_translate (tensor_of img) translation
    BuildResult.ok (lazily_apply_op img_
      (MetaMatrix.mk transform
        { shape_override := input_shape, translation := some translation,
          mode := some mode, padding_mode := some padding_mode, dtype := some dtype_ })
      lazy_evaluation)

/-- The pending-operation record observable from a deferred builder result:
the last record on a tracked result log, or the leftover record returned next
to a plain tensor. -/
def produced_record : BuildResult → Option MetaMatrix
  | BuildResult.ok (LazyResult.metaR m) => m.pending_operations.getLast?
  | BuildResult.ok (LazyResult.plainR _ (some op)) => some op
  | _ => none

/-- The `shape_override` metadata of the observable produced record. -/
def produced_shape (r : BuildResult) : Option (List ℤ) :=
  (produced_record r).map (fun op => op.metadata.shape_override)


/-! Corner-extent lemmas: pointwise min/max folds over the corner list. -/

theorem cornersQ_ne_nil (qs : List ℚ) : cornersQ qs ≠ [] := by
  cases qs with
  | nil => simp [cornersQ]
  | cons q qs =>
    simp only [cornersQ, ne_eq, List.append_eq_nil, List.map_eq_nil_iff]
    intro h
    exact cornersQ_ne_nil qs h.1

theorem mem_cornersQ_length {qs : List ℚ} {c : Vec} (h : c ∈ cornersQ qs) :
    c.length = qs.length := by
  induction qs generalizing c with
  | nil => simp [cornersQ] at h; simp [h]
  | cons q qs ih =>
    simp only [cornersQ, List.mem_append, List.mem_map] at h
    rcases h with ⟨w, hw, rfl⟩ | ⟨w, hw, rfl⟩ <;> simp [ih hw]

theorem cornersQ_head (qs : List ℚ) :
    ∃ es, cornersQ qs = (qs.map (fun _ => (0 : ℚ))) :: es := by
  induction qs with
  | nil => exact ⟨[], rfl⟩
  | cons q qs ih =>
    obtain ⟨es, hes⟩ := ih
    exact ⟨es.map (fun c => (0 : ℚ) :: c) ++ (cornersQ qs).map (fun c => q :: c),
      by simp [cornersQ, hes]⟩

theorem mem_hcorners_length {qs : List ℚ} {v : Vec} (h : v ∈ hcorners qs) :
    v.length = qs.length + 1 := by
  simp only [hcorners, List.mem_map] at h
  obtain ⟨c, hc, rfl⟩ := h
  simp [mem_cornersQ_length hc]

theorem zipWith_self {f : ℚ → ℚ → ℚ} (hidem : ∀ a, f a a = a) (v : Vec) :
    List.zipWith f v v = v := by
  induction v with
  | nil => rfl
  | cons x v ih => simp [hidem, ih]

theorem zipWith_absorb {f : ℚ → ℚ → ℚ}
    (hassoc : ∀ a b c, f (f a b) c = f a (f b c)) (hidem : ∀ a, f a a = a)
    (a b : Vec) : List.zipWith f (List.zipWith f a b) b = List.zipWith f a b := by
  induction a generalizing b with
  | nil => rfl
  | cons x a ih =>
    cases b with
    | nil => rfl
    | cons y b => simp [hassoc, hidem, ih]

theorem foldl_map_cons {f : ℚ → ℚ → ℚ}
    (hassoc : ∀ a b c, f (f a b) c = f a (f b c)) (hidem : ∀ a, f a a = a)
    (A : List Vec) (hne : A ≠ []) (h c : ℚ) (v : Vec) :
    (A.map (fun w => h :: w)).foldl (List.zipWith f) (c :: v) =
      f c h :: A.foldl (List.zipWith f) v := by
  induction A generalizing c v with
  | nil => exact absurd rfl hne
  | cons x A ih =>
    cases A with
    | nil => simp [List.foldl]
    | cons y A =>
      have hcons : List.foldl (List.zipWith f) (c :: v) (List.map (fun w => h :: w) (x :: y :: A)) =
          List.foldl (List.zipWith f) (f c h :: List.zipWith f v x)
            (List.map (fun w => h :: w) (y :: A)) := by
        simp [List.foldl]
      rw [hcons, ih (by simp) (f c h) (List.zipWith f v x)]
      have : f (f c h) h = f c h := by rw [hassoc, hidem]
      simp [this, List.foldl]

theorem zipWith_map_same {α β : Type} (f : α → α → β) (g h : α → α) (l : List α) :
    List.zipWith f (l.map g) (l.map h) = l.map (fun x => f (g x) (h x)) := by
  induction l with
  | nil => rfl
  | cons x l ih => simp [ih]

theorem foldl_cornersQ {f : ℚ → ℚ → ℚ}
    (hassoc : ∀ a b c, f (f a b) c = f a (f b c)) (hidem : ∀ a, f a a = a)
    (qs : List ℚ) (init : Vec) (hlen : init.length = qs.length) :
    (cornersQ qs).foldl (List.zipWith f) init =
      List.zipWith f init (qs.map (fun q => f 0 q)) := by
  induction qs generalizing init with
  | nil =>
    have : init = [] := List.length_eq_zero.mp (by simpa using hlen)
    subst this
    rfl
  | cons q qs ih =>
    cases init with
    | nil => simp at hlen
    | cons c v =>
      have hv : v.length = qs.length := by simpa using hlen
      have hA := cornersQ_ne_nil qs
      simp only [cornersQ, List.foldl_append]
      rw [foldl_map_cons hassoc hidem _ hA, ih v hv,
        foldl_map_cons hassoc hidem _ hA,
        ih (List.zipWith f v (qs.map (fun q => f 0 q))) (by simp [hv]),
        zipWith_absorb hassoc hidem, hassoc]
      simp

theorem foldl_append_one {f : ℚ → ℚ → ℚ} (hidem : ∀ a, f a a = a)
    (es : List Vec) (e : Vec) (hlen : ∀ x ∈ es, x.length = e.length) :
    (es.map (fun x => x ++ [(1 : ℚ)])).foldl (List.zipWith f) (e ++ [1]) =
      (es.foldl (List.zipWith f) e) ++ [1] := by
  induction es generalizing e with
  | nil => rfl
  | cons x es ih =>
    have hx : x.length = e.length := hlen x (by simp)
    have hstep : List.zipWith f (e ++ [1]) (x ++ [1]) = List.zipWith f e x ++ [1] := by
      rw [List.zipWith_append _ _ _ _ _ hx.symm]
      simp [hidem]
    simp only [List.map_cons, List.foldl_cons, hstep]
    rw [ih (List.zipWith f e x) ?_]
    intro y hy
    rw [List.length_zipWith, hx, min_self]
    exact hlen y (by simp [hy])

theorem foldl_self_head {f : ℚ → ℚ → ℚ} (hidem : ∀ a, f a a = a)
    (e : Vec) (es : List Vec) :
    es.foldl (List.zipWith f) e = (e :: es).foldl (List.zipWith f) e := by
  rw [List.foldl_cons, zipWith_self hidem]

theorem shape_from_hcorners (c : ℤ) (rest : List ℤ) (qs : List ℚ)
    (hlen : qs.length = rest.length) :
    shape_from_extents (c :: rest) (hcorners qs) =
      Except.ok (c :: qs.map (fun q => Int.ceil |q|)) := by
  obtain ⟨tail, htail⟩ := cornersQ_head qs
  have hzlen : (qs.map (fun _ => (0 : ℚ))).length = qs.length := by simp
  have htail_mem : ∀ x ∈ tail, x ∈ cornersQ qs := by
    intro x hx; rw [htail]; exact List.mem_cons_of_mem _ hx
  have hh : hcorners qs =
      ((qs.map (fun _ => (0 : ℚ))) ++ [1]) :: tail.map (fun x => x ++ [(1 : ℚ)]) := by
    rw [hcorners, htail]; simp
  have hall : ∀ v ∈ hcorners qs, (v.length == rest.length + 1) = true := by
    intro v hv
    simp [mem_hcorners_length hv, hlen]
  have hmins :
      (tail.map (fun x => x ++ [(1 : ℚ)])).foldl (List.zipWith min)
          ((qs.map (fun _ => (0 : ℚ))) ++ [1]) =
        (qs.map (fun q => min 0 q)) ++ [1] := by
    rw [foldl_append_one (fun a => min_self a) tail _ ?hlens]
    case hlens =>
      intro x hx
      rw [mem_cornersQ_length (htail_mem x hx), hzlen]
    congr 1
    rw [foldl_self_head (fun a => min_self a), ← htail,
      foldl_cornersQ (fun a b c => min_assoc a b c) (fun a => min_self a) qs _ hzlen,
      zipWith_map_same]
    refine List.map_congr_left (fun q _ => ?_)
    rw [← min_assoc, min_self]
  have hmaxs :
      (tail.map (fun x => x ++ [(1 : ℚ)])).foldl (List.zipWith max)
          ((qs.map (fun _ => (0 : ℚ))) ++ [1]) =
        (qs.map (fun q => max 0 q)) ++ [1] := by
    rw [foldl_append_one (fun a => max_self a) tail _ ?hlens]
    case hlens =>
      intro x hx
      rw [mem_cornersQ_length (htail_mem x hx), hzlen]
    congr 1
    rw [foldl_self_head (fun a => max_self a), ← htail,
      foldl_cornersQ (fun a b c => max_assoc a b c) (fun a => max_self a) qs _ hzlen,
      zipWith_map_same]
    refine List.map_congr_left (fun q _ => ?_)
    rw [← max_assoc, max_self]
  rw [hh]
  simp only [shape_from_extents]
  rw [if_pos ?hcond]
  case hcond =>
    rw [List.all_eq_true]
    intro v hv
    exact hall v (by rw [hh]; exact hv)
  have hzip : List.zipWith (fun a b => Int.ceil (b - a)) (qs.map (fun q => min 0 q))
      (qs.map (fun q => max 0 q)) = qs.map (fun q => Int.ceil |q|) := by
    rw [zipWith_map_same]
    refine List.map_congr_left (fun q _ => ?_)
    congr 1
    rw [max_comm, min_comm, max_sub_min_eq_abs, zero_sub, abs_neg]
  have hone : List.zipWith (fun a b => Int.ceil (b - a)) [(1 : ℚ)] [(1 : ℚ)] = [(0 : ℤ)] := by
    norm_num
  rw [hmins, hmaxs, List.zipWith_append _ _ _ _ _ (by simp), hzip, hone,
    List.take_left' (by simp [hlen])]


/-! Diagonal homogeneous matrices acting on corner extents. -/

theorem dot_cons (a b : ℚ) (r v : Vec) : dot (a :: r) (b :: v) = a * b + dot r v := by
  simp [dot]

theorem dot_replicate_zero (n : ℕ) (v : Vec) : dot (List.replicate n 0) v = 0 := by
  induction n generalizing v with
  | zero => simp [dot]
  | succ n ih =>
    cases v with
    | nil => simp [dot]
    | cons b v => rw [List.replicate_succ, dot_cons, ih, zero_mul, zero_add]

theorem diagHom_length (fs : List ℚ) : (diagHom fs).length = fs.length + 1 := by
  induction fs with
  | nil => rfl
  | cons f fs ih => simp [diagHom, ih]

theorem diagHom_row_length (fs : List ℚ) : ∀ r ∈ diagHom fs, r.length = fs.length + 1 := by
  induction fs with
  | nil => intro r hr; simp [diagHom] at hr; simp [hr]
  | cons f fs ih =>
    intro r hr
    simp only [diagHom, List.mem_cons, List.mem_map] at hr
    rcases hr with rfl | ⟨w, hw, rfl⟩
    · simp
    · simp [ih w hw]

theorem map_dot_diagHom (fs c : Vec) (h : c.length = fs.length) :
    (diagHom fs).map (fun row => dot row (c ++ [1])) =
      List.zipWith (fun f x => f * x) fs c ++ [1] := by
  induction fs generalizing c with
  | nil =>
    have : c = [] := List.length_eq_zero.mp (by simpa using h)
    subst this
    simp [diagHom, dot]
  | cons f fs ih =>
    cases c with
    | nil => simp at h
    | cons x c =>
      have hc : c.length = fs.length := by simpa using h
      simp only [diagHom, List.map_cons, List.map_map]
      have h1 : dot (f :: List.replicate (fs.length + 1) 0) (x :: c ++ [1]) = f * x := by
        rw [List.cons_append, dot_cons, dot_replicate_zero, add_zero]
      have h2 : ∀ r : Vec, dot ((0 : ℚ) :: r) (x :: c ++ [1]) = dot r (c ++ [1]) := by
        intro r
        rw [List.cons_append, dot_cons, zero_mul, zero_add]
      rw [h1]
      have h3 : (diagHom fs).map ((fun row => dot row (x :: c ++ [1])) ∘ fun r => (0 : ℚ) :: r) =
          (diagHom fs).map (fun row => dot row (c ++ [1])) := by
        refine List.map_congr_left (fun r _ => ?_)
        exact h2 r
      rw [h3, ih c hc]
      simp

theorem matVec_diagHom (fs c : Vec) (h : c.length = fs.length) :
    matVec (diagHom fs) (c ++ [1]) =
      Except.ok (List.zipWith (fun f x => f * x) fs c ++ [1]) := by
  rw [matVec, if_pos, map_dot_diagHom fs c h]
  rw [List.all_eq_true]
  intro r hr
  simp [diagHom_row_length fs r hr, h]

theorem mapM_ok_of_forall {α β : Type} (l : List α) (f : α → Except Err β) (g : α → β)
    (h : ∀ a ∈ l, f a = Except.ok (g a)) : l.mapM f = Except.ok (l.map g) := by
  induction l with
  | nil => rfl
  | cons a l ih =>
    rw [List.mapM_cons, h a (by simp), ih (fun a ha => h a (by simp [ha]))]
    rfl

theorem mapM_map_comp {α β γ : Type} (l : List α) (h : α → β) (f : β → Except Err γ) :
    (l.map h).mapM f = l.mapM (fun a => f (h a)) := by
  induction l with
  | nil => rfl
  | cons a l ih => rw [List.map_cons, List.mapM_cons, List.mapM_cons, ih]

theorem cornersQ_scale (fs qs : List ℚ) (h : fs.length = qs.length) :
    (cornersQ qs).map (fun c => List.zipWith (fun f x => f * x) fs c) =
      cornersQ (List.zipWith (fun f x => f * x) fs qs) := by
  induction qs generalizing fs with
  | nil =>
    have : fs = [] := List.length_eq_zero.mp (by simpa using h)
    subst this
    rfl
  | cons q qs ih =>
    cases fs with
    | nil => simp at h
    | cons f fs =>
      have hf : fs.length = qs.length := by simpa using h
      simp only [cornersQ, List.zipWith_cons_cons, List.map_append, List.map_map]
      congr 1
      · have : ((fun c => List.zipWith (fun f x => f * x) (f :: fs) c) ∘ fun c => (0 : ℚ) :: c) =
            (fun c => (0 : ℚ) :: c) ∘ fun c => List.zipWith (fun f x => f * x) fs c := by
          funext c
          simp
        rw [this, ← List.map_map, ih fs hf]
      · have : ((fun c => List.zipWith (fun f x => f * x) (f :: fs) c) ∘ fun c => q :: c) =
            (fun c => f * q :: c) ∘ fun c => List.zipWith (fun f x => f * x) fs c := by
          funext c
          simp
        rw [this, ← List.map_map, ih fs hf]

theorem hcorners_mapM_diag (fs qs : List ℚ) (h : fs.length = qs.length) :
    (hcorners qs).mapM (matVec (diagHom fs)) =
      Except.ok (hcorners (List.zipWith (fun f x => f * x) fs qs)) := by
  rw [hcorners, mapM_map_comp,
    mapM_ok_of_forall (cornersQ qs) _ (fun c => List.zipWith (fun f x => f * x) fs c ++ [1]) ?_]
  · rw [hcorners, ← cornersQ_scale fs qs h, List.map_map]
    rfl
  · intro c hc
    exact matVec_diagHom fs c ((mem_cornersQ_length hc).trans h.symm)

theorem is_matrix_shaped_diagHom (fs : List ℚ) (h : fs.length = 2 ∨ fs.length = 3) :
    is_matrix_shaped (diagHom fs) = true := by
  have hrow := diagHom_row_length fs
  rcases h with h | h
  · have h1 : (diagHom fs).length = 3 := by rw [diagHom_length, h]
    rw [is_matrix_shaped, Bool.or_eq_true, Bool.and_eq_true, Bool.and_eq_true]
    refine Or.inl ⟨by simp [h1], ?_⟩
    rw [List.all_eq_true]
    intro r hr
    simp [hrow r hr, h]
  · have h1 : (diagHom fs).length = 4 := by rw [diagHom_length, h]
    rw [is_matrix_shaped, Bool.or_eq_true, Bool.and_eq_true, Bool.and_eq_true]
    refine Or.inr ⟨by simp [h1], ?_⟩
    rw [List.all_eq_true]
    intro r hr
    simp [hrow r hr, h]

theorem transform_shape_diagHom (c : ℤ) (rest : List ℤ) (fs : List ℚ)
    (hfs : fs.length = rest.length) (hdim : fs.length = 2 ∨ fs.length = 3) :
    transform_shape (c :: rest) (diagHom fs) =
      Except.ok (c :: (List.zipWith (fun f x => f * x) fs
          (rest.map (fun d : ℤ => (d : ℚ)))).map (fun q => Int.ceil |q|)) := by
  rw [transform_shape, if_pos (is_matrix_shaped_diagHom fs hdim)]
  have hq : fs.length = (rest.map (fun d : ℤ => (d : ℚ))).length := by
    rw [List.length_map]
    exact hfs
  rw [show extents_from_shape (c :: rest) = hcorners (rest.map (fun d : ℤ => (d : ℚ))) from rfl,
    hcorners_mapM_diag fs _ hq]
  refine shape_from_hcorners c rest _ ?_
  rw [List.length_zipWith, List.length_map, hfs, min_self]

theorem zip_signs_ceil_abs (ss qs : List ℚ) (hlen : ss.length = qs.length)
    (hs : ∀ s ∈ ss, s = 1 ∨ s = -1) :
    (List.zipWith (fun f x => f * x) ss qs).map (fun q => Int.ceil |q|) =
      qs.map (fun q => Int.ceil |q|) := by
  induction ss generalizing qs with
  | nil =>
    have : qs = [] := List.length_eq_zero.mp (by simpa using hlen.symm)
    subst this
    rfl
  | cons s ss ih =>
    cases qs with
    | nil => simp at hlen
    | cons q qs =>
      have h1 : |s * q| = |q| := by
        rcases hs s (by simp) with rfl | rfl
        · rw [one_mul]
        · rw [neg_one_mul, abs_neg]
      simp only [List.zipWith_cons_cons, List.map_cons, h1]
      rw [ih qs (by simpa using hlen) (fun x hx => hs x (by simp [hx]))]

theorem zip_div_mul_cancel (ss ds : List ℤ) (hlen : ss.length = ds.length)
    (hds : ∀ d ∈ ds, d ≠ 0) :
    List.zipWith (fun f x => f * x)
        (List.zipWith (fun (i j : ℤ) => (i : ℚ) / (j : ℚ)) ss ds)
        (ds.map (fun d : ℤ => (d : ℚ))) =
      ss.map (fun i : ℤ => (i : ℚ)) := by
  induction ss generalizing ds with
  | nil => rfl
  | cons s ss ih =>
    cases ds with
    | nil => simp at hlen
    | cons d ds =>
      have hd : (d : ℚ) ≠ 0 := Int.cast_ne_zero.mpr (hds d (by simp))
      simp only [List.zipWith_cons_cons, List.map_cons]
      rw [div_mul_cancel₀ _ hd, ih ds (by simpa using hlen) (fun x hx => hds x (by simp [hx]))]

theorem map_ceil_abs_cast (ds : List ℤ) (h : ∀ d ∈ ds, 0 ≤ d) :
    (ds.map (fun d : ℤ => (d : ℚ))).map (fun q => Int.ceil |q|) = ds := by
  induction ds with
  | nil => rfl
  | cons d ds ih =>
    simp only [List.map_cons, List.cons.injEq]
    constructor
    · rw [abs_of_nonneg (by exact_mod_cast h d (by simp)), Int.ceil_intCast]
    · exact ih (fun x hx => h x (by simp [hx]))


/-! Builder-level helper lemmas. -/

theorem resolved_eq_spec (o : Option (List ℤ)) (img : Image) :
    resolved_input_shape o img = spec_resolved_input_shape o img := by
  cases o with
  | some s => rfl
  | none =>
    cases img with
    | plain t => rfl
    | meta m =>
      simp only [resolved_input_shape, spec_resolved_input_shape]
      rcases eq_or_ne m.pending_operations [] with h | h
      · simp [h]
      · simp [h, List.length_pos.mpr h]

theorem produced_shape_lazy_true (img : Image) (op : MetaMatrix) :
    produced_shape (BuildResult.ok (lazily_apply_op img op true)) =
      some op.metadata.shape_override := by
  cases img with
  | meta m => simp [lazily_apply_op, produced_shape, produced_record]
  | plain t => simp [lazily_apply_op, produced_shape, produced_record]

/-- C2: for every plain (non-tracked) tensor and every pending-operation
record, the dispatcher `lazily_apply_op` with `apply_now` false (that is,
`lazy_evaluation` true) returns the original tensor unchanged together with
the unapplied record, and with `apply_now` true (`lazy_evaluation` false)
returns the applied result together with no leftover record. -/
theorem lazily_apply_op_plain_dispatch (t : Tensor) (op : MetaMatrix) :
    lazily_apply_op (Image.plain t) op true = LazyResult.plainR t (some op) ∧
    lazily_apply_op (Image.plain t) op false =
      LazyResult.plainR (apply_transforms_pending t [op]) none := by
  constructor <;> rfl

/-- C2 witness: the dispatcher evaluated at a concrete plain tensor and
record. -/
theorem lazily_apply_op_plain_dispatch_witness :
    lazily_apply_op (Image.plain ⟨[1, 4], DType.float32, []⟩)
        (MetaMatrix.mk [[1]] { shape_override := [1, 4] }) true =
      LazyResult.plainR ⟨[1, 4], DType.float32, []⟩
        (some (MetaMatrix.mk [[1]] { shape_override := [1, 4] })) ∧
    lazily_apply_op (Image.plain ⟨[1, 4], DType.float32, []⟩)
        (MetaMatrix.mk [[1]] { shape_override := [1, 4] }) false =
      LazyResult.plainR
        (apply_transforms_pending ⟨[1, 4], DType.float32, []⟩
          [MetaMatrix.mk [[1]] { shape_override := [1, 4] }]) none :=
  lazily_apply_op_plain_dispatch ⟨[1, 4], DType.float32, []⟩
    (MetaMatrix.mk [[1]] { shape_override := [1, 4] })

/-- C9: for every shape `[C, d1, ..., dK]` with nonnegative extents, computing
the corner extents with `extents_from_shape` and converting them back with
`shape_from_extents` yields the shape exactly. -/
theorem shape_round_trip (c : ℤ) (ds : List ℤ) (h : ∀ d ∈ ds, 0 ≤ d) :
    shape_from_extents (c :: ds) (extents_from_shape (c :: ds)) = Except.ok (c :: ds) := by
  rw [show extents_from_shape (c :: ds) = hcorners (ds.map (fun d : ℤ => (d : ℚ))) from rfl,
    shape_from_hcorners c ds _ (by simp), map_ceil_abs_cast ds h]

/-- C9 witness: the round trip evaluated on the concrete shape `[1, 10, 20]`. -/
theorem shape_round_trip_witness :
    shape_from_extents [1, 10, 20] (extents_from_shape [1, 10, 20]) =
      Except.ok [1, 10, 20] :=
  shape_round_trip 1 [10, 20] (by decide)

/-- C5: for every input image (including images whose two rotated axes have
unequal extents) and every valid axis pair, `rotate90` reports an output
shape (`shape_override`) equal to the resolved input shape. -/
theorem rotate90_reports_input_shape (img : Image) (k : ℤ) (a b : ℕ)
    (o : Option (List ℤ)) (hab : a ≠ b)
    (ha : a < (tensor_of img).shape.length - 1)
    (hb : b < (tensor_of img).shape.length - 1) :
    produced_shape (rotate90 img k [a, b] o true) =
      some (spec_resolved_input_shape o img) := by
  have hcr : compatible_rotate_90 (tensor_of img) [a, b] k =
      Except.ok (rot90Hom ((tensor_of img).shape.length - 1) a b k) := by
    simp only [compatible_rotate_90]
    rw [if_pos ⟨hab, ha, hb⟩]
  simp only [rotate90, if_neg (show ¬(([a, b] : List ℕ).length ≠ 2) by simp),
    convert_to_tensor, hcr]
  rw [produced_shape_lazy_true, resolved_eq_spec]

/-- C5 witness: `rotate90` on a `[1, 10, 20]` image whose two rotated axes
have unequal extents (10 and 20) still reports `[1, 10, 20]`. -/
theorem rotate90_reports_input_shape_witness :
    produced_shape (rotate90 (Image.plain ⟨[1, 10, 20], DType.float32, []⟩) 1 [0, 1] none true) =
      some (spec_resolved_input_shape none (Image.plain ⟨[1, 10, 20], DType.float32, []⟩)) :=
  rotate90_reports_input_shape (Image.plain ⟨[1, 10, 20], DType.float32, []⟩) 1 0 1 none
    (by decide) (by decide) (by decide)

/-- C1: evaluation of the code at the failing input. `zoom` with
`keep_size = True` on a `[1, 10, 10]` image with factor 2 stores
`shape_override = [1, 5, 5]`, not the input shape `[1, 10, 10]`: the source
branches on `keep_size is False`, the inverse of its own docstring ("If it is
True, the output shape is kept the same as the input"). -/
theorem zoom_keep_size_true_changes_shape :
    produced_shape (zoom (Image.plain ⟨[1, 10, 10], DType.float32, []⟩) (ValOrSeq.one 2)
        ModeStr.bilinear PadStr.zeros false true none none true) = some [1, 5, 5] ∧
    ([1, 5, 5] : List ℤ) ≠ [1, 10, 10] := by
  constructor
  · have hts : transform_shape [1, 10, 10] (diagHom [1 / 2, 1 / 2]) = Except.ok [1, 5, 5] := by
      rw [transform_shape_diagHom 1 [10, 10] [1 / 2, 1 / 2] (by decide) (Or.inl (by decide))]
      norm_num
    have hmap : List.map (fun f : ℚ => 1 / f) [2, 2] = [1 / 2, 1 / 2] := rfl
    have hn : ((([1, 10, 10] : List ℤ).length : ℤ) - 1).toNat = 2 := by decide
    have hrep2 : List.replicate 2 (2 : ℚ) = [2, 2] := rfl
    simp only [zoom, convert_to_tensor, resolved_input_shape, ensure_tuple_rep, look_up_gsm,
      look_up_gspm, compatible_scale, hn, hrep2, hmap]
    rw [hts]
    simp only [if_neg (show ¬(true = false) by decide), if_neg (show ¬(false = true) by decide)]
    rw [produced_shape_lazy_true]
  · decide


theorem map_ceil_abs_cast_eq_abs (ds : List ℤ) :
    (ds.map (fun d : ℤ => (d : ℚ))).map (fun q => Int.ceil |q|) = ds.map (fun d => |d|) := by
  induction ds with
  | nil => rfl
  | cons d ds ih =>
    simp only [List.map_cons, List.cons.injEq]
    refine ⟨?_, ih⟩
    rw [← Int.cast_abs, Int.ceil_intCast]

/-- Evaluation of `flip` with defaulted spatial axes: it always succeeds on a
well-formed resolved shape, and the stored `shape_override` is the resolved
input shape up to taking absolute values of the extents. -/
theorem flip_none_eval (img : Image) (o : Option (List ℤ)) (lazy : Bool)
    (c : ℤ) (rest : List ℤ) (hS : resolved_input_shape o img = c :: rest)
    (hlen : rest.length + 1 = (tensor_of img).shape.length) :
    ∃ T, flip img none o lazy =
      BuildResult.ok (lazily_apply_op img
        (MetaMatrix.mk T
          { shape_override := c :: rest.map (fun d => |d|),
            spatial_axis := some (List.range rest.length) })
        lazy) := by
  have hk : (tensor_of img).shape.length - 1 = rest.length := by omega
  have hcf : compatible_flip (tensor_of img) (List.range rest.length) =
      Except.ok (diagHom ((List.range rest.length).map
        (fun i => if i ∈ List.range rest.length then (-1 : ℚ) else 1))) := by
    have hall : ((List.range rest.length).all
        fun a => decide (a < rest.length)) = true := by
      rw [List.all_eq_true]
      intro a ha
      rw [decide_eq_true_eq]
      exact List.mem_range.mp ha
    simp only [compatible_flip, hk, hall, if_true]
  set signs := (List.range rest.length).map
      (fun i => if i ∈ List.range rest.length then (-1 : ℚ) else 1) with hsigns
  have hslen : signs.length = rest.length := by rw [hsigns]; simp
  have hsprop : ∀ s ∈ signs, s = 1 ∨ s = -1 := by
    intro s hs
    rw [hsigns] at hs
    simp only [List.mem_map] at hs
    obtain ⟨i, _, rfl⟩ := hs
    split <;> simp
  have hmapM : (extents_from_shape (c :: rest)).mapM (matVec (diagHom signs)) =
      Except.ok (hcorners (List.zipWith (fun f x => f * x) signs
        (rest.map (fun d : ℤ => (d : ℚ))))) := by
    rw [show extents_from_shape (c :: rest) =
        hcorners (rest.map (fun d : ℤ => (d : ℚ))) from rfl,
      hcorners_mapM_diag signs _ (by simp [hslen])]
  have hsfe : shape_from_extents (c :: rest)
      (hcorners (List.zipWith (fun f x => f * x) signs
        (rest.map (fun d : ℤ => (d : ℚ))))) =
      Except.ok (c :: rest.map (fun d => |d|)) := by
    rw [shape_from_hcorners c rest _
        (by rw [List.length_zipWith, hslen, List.length_map, min_self]),
      zip_signs_ceil_abs signs _ (by simp [hslen]) hsprop, map_ceil_abs_cast_eq_abs]
  refine ⟨diagHom signs, ?_⟩
  have hrange : List.range ((c :: rest).length - 1) = List.range rest.length := by simp
  simp only [flip, convert_to_tensor, hS, hrange, hcf, hmapM, hsfe]

/-- C10: for every image whose resolved input shape is well-formed (nonempty
and of the image rank), calling `flip` with `spatial_axis = None` does not
raise: the spatial axes default to every spatial axis of the resolved input
shape. -/
theorem flip_default_axes_no_raise (img : Image) (o : Option (List ℤ)) (lazy : Bool)
    (c : ℤ) (rest : List ℤ) (hS : resolved_input_shape o img = c :: rest)
    (hlen : rest.length + 1 = (tensor_of img).shape.length) :
    (flip img none o lazy).isOk = true := by
  obtain ⟨T, hT⟩ := flip_none_eval img o lazy c rest hS hlen
  rw [hT]
  rfl

/-- C10 witness: `flip` with default axes on a concrete `[2, 5, 7]` image. -/
theorem flip_default_axes_no_raise_witness :
    (flip (Image.plain ⟨[2, 5, 7], DType.float32, []⟩) none none true).isOk = true :=
  flip_default_axes_no_raise (Image.plain ⟨[2, 5, 7], DType.float32, []⟩) none true 2 [5, 7]
    rfl (by decide)


/-- C3: the builders resolve the input shape with the spec precedence —
explicit `shape_override` first, else the shape predicted by a nonempty
pending-operation log, else the concrete shape (`spec_resolved_input_shape`
is that precedence written from the spec). Witnessed through the two cited
builders: `flip` (whose stored `shape_override` equals the resolved input
shape) and `rotate` with `keep_size = False` (which stores the resolved input
shape directly). -/
theorem builder_input_shape_precedence :
    (∀ (img : Image) (o : Option (List ℤ)) (c : ℤ) (rest : List ℤ),
        resolved_input_shape o img = c :: rest →
        rest.length + 1 = (tensor_of img).shape.length →
        (∀ d ∈ rest, 0 ≤ d) →
        produced_shape (flip img none o true) = some (spec_resolved_input_shape o img)) ∧
    (∀ (img : Image) (a : Angle) (dt : Option DType) (o : Option (List ℤ)),
        ((resolved_input_shape o img).length : ℤ) - 1 = 2 ∨
          ((resolved_input_shape o img).length : ℤ) - 1 = 3 →
        produced_shape
            (rotate img (ValOrSeq.one a) false ModeStr.nearest PadStr.zeros false dt o true) =
          some (spec_resolved_input_shape o img)) := by
  constructor
  · intro img o c rest hS hlen hnn
    obtain ⟨T, hT⟩ := flip_none_eval img o true c rest hS hlen
    rw [hT, produced_shape_lazy_true]
    have habs : rest.map (fun d => |d|) = rest :=
      (List.map_congr_left fun d hd => abs_of_nonneg (hnn d hd)).trans (List.map_id rest)
    rw [← resolved_eq_spec, hS, habs]
  · intro img a dt o hdim
    have hguard : ¬(((resolved_input_shape o img).length : ℤ) - 1 ≠ 2 ∧
        ((resolved_input_shape o img).length : ℤ) - 1 ≠ 3) := by
      rcases hdim with h | h
      · exact fun hc => hc.1 h
      · exact fun hc => hc.2 h
    simp only [rotate, convert_to_tensor, look_up_gsm, look_up_gspm]
    rw [if_neg hguard]
    rcases hdim with h | h
    · rw [if_pos h]
      simp only [ensure_tuple_rep, List.replicate, compatible_rotate]
      rw [if_pos trivial]
      simp only [if_neg (show ¬(false = true) by decide)]
      rw [produced_shape_lazy_true, resolved_eq_spec]
    · rw [if_neg (by omega)]
      simp only [ensure_tuple_rep, List.replicate, compatible_rotate]
      rw [if_pos trivial]
      simp only [if_neg (show ¬(false = true) by decide)]
      rw [produced_shape_lazy_true, resolved_eq_spec]

/-- C3 witness: the precedence evaluated concretely. For `flip`, a tracked
image with a nonempty pending log resolves to the pending predicted shape
`[1, 8, 8]`; for `rotate`, a plain image resolves to its concrete shape. -/
theorem builder_input_shape_precedence_witness :
    produced_shape (flip (Image.meta ⟨⟨[1, 4, 4], DType.float32, []⟩,
        [MetaMatrix.mk [[1]] { shape_override := [1, 8, 8] }]⟩) none none true) =
      some (spec_resolved_input_shape none (Image.meta ⟨⟨[1, 4, 4], DType.float32, []⟩,
        [MetaMatrix.mk [[1]] { shape_override := [1, 8, 8] }]⟩)) ∧
    produced_shape (rotate (Image.plain ⟨[1, 10, 10], DType.float32, []⟩) (ValOrSeq.one ⟨1, 0⟩)
        false ModeStr.nearest PadStr.zeros false none none true) =
      some (spec_resolved_input_shape none (Image.plain ⟨[1, 10, 10], DType.float32, []⟩)) :=
  ⟨builder_input_shape_precedence.1
      (Image.meta ⟨⟨[1, 4, 4], DType.float32, []⟩,
        [MetaMatrix.mk [[1]] { shape_override := [1, 8, 8] }]⟩) none 1 [8, 8] rfl (by decide)
      (by decide),
    builder_input_shape_precedence.2 (Image.plain ⟨[1, 10, 10], DType.float32, []⟩) ⟨1, 0⟩
      none none (Or.inl (by decide))⟩


/-- C4: error atomicity. Every raise in every builder happens before the
pending-operation record is created and dispatched, so a failed builder call
returns the image state unchanged (the `err` result carries the image state
at the moment of the raise, and it is always the untouched input image). -/
theorem builder_error_atomicity :
    (∀ img translation mode pad dt o lazy i e,
        translate img translation mode pad dt o lazy = BuildResult.err i e → i = img) ∧
    (∀ img angle keep mode pad align dt o lazy i e,
        rotate img angle keep mode pad align dt o lazy = BuildResult.err i e → i = img) ∧
    (∀ img ss sm mode align aa aas dt o lazy i e,
        resize img ss sm mode align aa aas dt o lazy = BuildResult.err i e → i = img) ∧
    (∀ img factor mode pad align keep dt o lazy i e,
        zoom img factor mode pad align keep dt o lazy = BuildResult.err i e → i = img) ∧
    (∀ img ax o lazy i e, flip img ax o lazy = BuildResult.err i e → i = img) ∧
    (∀ img k axes o lazy i e, rotate90 img k axes o lazy = BuildResult.err i e → i = img) := by
  refine ⟨?_, ?_, ?_, ?_, ?_, ?_⟩
  · intro img translation mode pad dt o lazy i e h
    simp only [translate, convert_to_tensor] at h
    repeat' split at h
    all_goals
      first
      | (injection h with h1 h2; exact h1.symm)
      | exact BuildResult.noConfusion h
  · intro img angle keep mode pad align dt o lazy i e h
    simp only [rotate, convert_to_tensor] at h
    repeat' split at h
    all_goals
      first
      | (injection h with h1 h2; exact h1.symm)
      | exact BuildResult.noConfusion h
  · intro img ss sm mode align aa aas dt o lazy i e h
    simp only [resize, convert_to_tensor] at h
    repeat' split at h
    all_goals
      first
      | (injection h with h1 h2; exact h1.symm)
      | exact BuildResult.noConfusion h
  · intro img factor mode pad align keep dt o lazy i e h
    simp only [zoom, convert_to_tensor] at h
    repeat' split at h
    all_goals
      first
      | (injection h with h1 h2; exact h1.symm)
      | exact BuildResult.noConfusion h
  · intro img ax o lazy i e h
    simp only [flip, convert_to_tensor] at h
    repeat' split at h
    all_goals
      first
      | (injection h with h1 h2; exact h1.symm)
      | exact BuildResult.noConfusion h
  · intro img k axes o lazy i e h
    simp only [rotate90, convert_to_tensor] at h
    repeat' split at h
    all_goals
      first
      | (injection h with h1 h2; exact h1.symm)
      | exact BuildResult.noConfusion h

/-- C4 witness: concrete failing calls (a 3-vector translation on a 2D image,
`rotate` on a 1D image) whose error results carry the unchanged image. -/
theorem builder_error_atomicity_witness :
    (Image.plain ⟨[1, 10, 10], DType.float32, []⟩ : Image) =
        Image.plain ⟨[1, 10, 10], DType.float32, []⟩ ∧
    (Image.plain ⟨[1, 10], DType.float32, []⟩ : Image) =
        Image.plain ⟨[1, 10], DType.float32, []⟩ :=
  ⟨builder_error_atomicity.1 (Image.plain ⟨[1, 10, 10], DType.float32, []⟩) [1, 2, 3]
      ModeStr.bilinear PadStr.edge none none true
      (Image.plain ⟨[1, 10, 10], DType.float32, []⟩)
      (Err.configuration "translate length must be equal to img spatial dimensions")
      (by decide),
    builder_error_atomicity.2.1 (Image.plain ⟨[1, 10], DType.float32, []⟩) (ValOrSeq.one ⟨1, 0⟩)
      true ModeStr.nearest PadStr.zeros false none none true
      (Image.plain ⟨[1, 10], DType.float32, []⟩)
      (Err.configuration "Unsupported image dimension, available options are 2 and 3")
      (by decide)⟩

/-- C6: parameter validation. `translate` with a translation vector whose
length differs from the resolved spatial dimensionality raises the
configuration error; `rotate` (reached with valid modes) on an image whose
spatial dimensionality is not 2 or 3 raises the configuration error; `resize`
in "all" mode with fewer target dimensions than the input raises the
configuration error. -/
theorem builder_parameter_validation :
    (∀ img (translation : List ℚ) mode pad dt o lazy,
        (translation.length : ℤ) ≠ ((resolved_input_shape o img).length : ℤ) - 1 →
        translate img translation mode pad dt o lazy =
          BuildResult.err img (Err.configuration
            "translate length must be equal to img spatial dimensions")) ∧
    (∀ img angle keep align dt o lazy,
        ((resolved_input_shape o img).length : ℤ) - 1 ≠ 2 →
        ((resolved_input_shape o img).length : ℤ) - 1 ≠ 3 →
        rotate img angle keep ModeStr.nearest PadStr.zeros align dt o lazy =
          BuildResult.err img (Err.configuration
            "Unsupported image dimension, available options are 2 and 3")) ∧
    (∀ img (ss : ValOrSeq ℤ) mode align aa aas dt o lazy,
        ((ensure_tuple ss).length : ℤ) < ((resolved_input_shape o img).length : ℤ) - 1 →
        resize img ss "all" mode align aa aas dt o lazy =
          BuildResult.err img (Err.configuration
            "len of spatial_size must be greater or equal to img spatial dimensions")) := by
  refine ⟨?_, ?_, ?_⟩
  · intro img translation mode pad dt o lazy hne
    simp only [translate, convert_to_tensor]
    rw [if_pos hne]
  · intro img angle keep align dt o lazy h2 h3
    simp only [rotate, convert_to_tensor, look_up_gsm, look_up_gspm]
    rw [if_pos ⟨h2, h3⟩]
  · intro img ss mode align aa aas dt o lazy hlt
    simp only [resize, convert_to_tensor]
    rw [if_pos (show (("all" : String) == "all") = true from by decide)]
    rw [if_neg (show ¬(((resolved_input_shape o img).length : ℤ) - 1 <
        ((ensure_tuple ss).length : ℤ)) from by omega)]
    rw [if_pos hlt]

/-- C6 witness: the three validation failures evaluated on concrete inputs. -/
theorem builder_parameter_validation_witness :
    translate (Image.plain ⟨[1, 10, 10], DType.float32, []⟩) [1, 2, 3] ModeStr.bilinear
        PadStr.edge none none true =
      BuildResult.err (Image.plain ⟨[1, 10, 10], DType.float32, []⟩)
        (Err.configuration "translate length must be equal to img spatial dimensions") ∧
    rotate (Image.plain ⟨[1, 10], DType.float32, []⟩) (ValOrSeq.one ⟨1, 0⟩) true ModeStr.nearest
        PadStr.zeros false none none true =
      BuildResult.err (Image.plain ⟨[1, 10], DType.float32, []⟩)
        (Err.configuration "Unsupported image dimension, available options are 2 and 3") ∧
    resize (Image.plain ⟨[1, 10, 10], DType.float32, []⟩) (ValOrSeq.many [5]) "all"
        ModeStr.bilinear false none none none none true =
      BuildResult.err (Image.plain ⟨[1, 10, 10], DType.float32, []⟩)
        (Err.configuration "len of spatial_size must be greater or equal to img spatial dimensions") :=
  ⟨builder_parameter_validation.1 (Image.plain ⟨[1, 10, 10], DType.float32, []⟩) [1, 2, 3]
      ModeStr.bilinear PadStr.edge none none true (by decide),
    builder_parameter_validation.2.1 (Image.plain ⟨[1, 10], DType.float32, []⟩)
      (ValOrSeq.one ⟨1, 0⟩) true false none none true (by decide) (by decide),
    builder_parameter_validation.2.2 (Image.plain ⟨[1, 10, 10], DType.float32, []⟩)
      (ValOrSeq.many [5]) ModeStr.bilinear false none none none none true (by decide)⟩


theorem le_foldl_max (xs : List ℤ) (x : ℤ) : x ≤ xs.foldl max x := by
  induction xs generalizing x with
  | nil => exact le_refl x
  | cons y ys ih => exact le_trans (le_max_left x y) (ih (max x y))

theorem listMax_pos (ds : List ℤ) (hne : ds ≠ []) (h : ∀ d ∈ ds, 0 < d) : 0 < listMax ds := by
  cases ds with
  | nil => exact absurd rfl hne
  | cons x xs => exact lt_of_lt_of_le (h x (by simp)) (le_foldl_max xs x)

theorem pythonRound_nonneg (q : ℚ) (h : 0 ≤ q) : 0 ≤ pythonRound q := by
  have hf : 0 ≤ Int.floor q := Int.floor_nonneg.mpr h
  simp only [pythonRound]
  split_ifs <;> omega

/-- C7 amended: resize in "longest" mode, restricted to the spatial
dimensionalities the code can actually complete. For an input with positive
spatial shape `[d1, ..., dK]` where K is 2 or 3 (the only dimensionalities
accepted by the 3x3/4x4 matrix check inside `transform_shape`) and a
nonnegative integer target `t`, the predicted output spatial shape applies
the single scale factor `t / max(d1, ..., dK)` to every axis with per-axis
Python rounding (round half to even, the source's `int(round(.))`): axis `i`
becomes `round(di * t / max)`. A non-integer (sequence) target in "longest"
mode raises the configuration error. For other K the call raises instead of
predicting a shape — see the counterexample below. -/
theorem resize_longest_mode (c : ℤ) (ds : List ℤ) (dt : DType) (data : List ℚ) (t : ℤ)
    (ht : 0 ≤ t) (hpos : ∀ d ∈ ds, 0 < d) (hdim : ds.length = 2 ∨ ds.length = 3) :
    produced_shape (resize (Image.plain ⟨c :: ds, dt, data⟩) (ValOrSeq.one t) "longest"
        ModeStr.bilinear false none none none none true) =
      some (c :: ds.map (fun d : ℤ =>
        pythonRound ((d : ℚ) * (t : ℚ) / (listMax ds : ℚ)))) ∧
    (∀ (l : List ℤ) img mode align aa aas dtp o lazy,
        resize img (ValOrSeq.many l) "longest" mode align aa aas dtp o lazy =
          BuildResult.err img (Err.configuration
            "spatial_size must be an int number if size_mode is longest")) := by
  have hlongest : (("longest" : String) == "all") = false := by decide
  constructor
  · have hres : resolved_input_shape none (Image.plain ⟨c :: ds, dt, data⟩) = c :: ds := rfl
    have hdrop : (c :: ds).drop 1 = ds := rfl
    set scale : ℚ := (t : ℚ) / (listMax ds : ℚ) with hscale
    set ss : List ℤ := ds.map (fun s : ℤ => pythonRound ((s : ℚ) * scale)) with hss
    have hsslen : ss.length = ds.length := by rw [hss]; simp
    have hssnn : ∀ s ∈ ss, 0 ≤ s := by
      intro s hs
      rw [hss] at hs
      simp only [List.mem_map] at hs
      obtain ⟨d, hd, rfl⟩ := hs
      refine pythonRound_nonneg _ ?_
      have hd0 : (0 : ℚ) ≤ (d : ℚ) := by exact_mod_cast (hpos d hd).le
      have hmax : (0 : ℚ) < (listMax ds : ℚ) := by
        exact_mod_cast listMax_pos ds (by rintro rfl; simp at hdim) hpos
      have hsc : 0 ≤ scale := by
        rw [hscale]
        exact div_nonneg (by exact_mod_cast ht) hmax.le
      exact mul_nonneg hd0 hsc
    set fs : List ℚ := List.zipWith (fun (i j : ℤ) => (i : ℚ) / (j : ℚ)) ss ds with hfs
    have hfslen : fs.length = ds.length := by
      rw [hfs, List.length_zipWith, hsslen, min_self]
    have hts : transform_shape (c :: ds) (diagHom fs) = Except.ok (c :: ss) := by
      rw [transform_shape_diagHom c ds fs hfslen (hfslen ▸ hdim)]
      rw [hfs, zip_div_mul_cancel ss ds (by rw [hsslen]) (fun d hd => (hpos d hd).ne'),
        map_ceil_abs_cast ss hssnn]
    simp only [resize, convert_to_tensor, hres, hlongest, Bool.false_eq_true, if_false,
      hdrop, look_up_gsm, compatible_scale, hts]
    rw [produced_shape_lazy_true]
    have : ss = ds.map (fun d : ℤ => pythonRound ((d : ℚ) * (t : ℚ) / (listMax ds : ℚ))) := by
      rw [hss]
      refine List.map_congr_left (fun d _ => ?_)
      rw [hscale, mul_div_assoc]
    rw [this]
  · intro l img mode align aa aas dtp o lazy
    simp only [resize, convert_to_tensor, hlongest, Bool.false_eq_true, if_false]

/-- C7 witness: the spec example — input spatial shape `(10, 40)`, target
longest size 20, output spatial shape `(5, 20)` — plus a sequence target
rejected. -/
theorem resize_longest_mode_witness :
    produced_shape (resize (Image.plain ⟨[1, 10, 40], DType.float32, []⟩) (ValOrSeq.one 20)
        "longest" ModeStr.bilinear false none none none none true) =
      some ((1 : ℤ) ::
        [10, 40].map (fun d : ℤ =>
          pythonRound ((d : ℚ) * ((20 : ℤ) : ℚ) / (listMax [10, 40] : ℚ)))) ∧
    resize (Image.plain ⟨[1, 10, 40], DType.float32, []⟩) (ValOrSeq.many [5, 20]) "longest"
        ModeStr.bilinear false none none none none true =
      BuildResult.err (Image.plain ⟨[1, 10, 40], DType.float32, []⟩)
        (Err.configuration "spatial_size must be an int number if size_mode is longest") := by
  have h := resize_longest_mode 1 [10, 40] DType.float32 [] 20 (by decide) (by decide)
    (Or.inl (by decide))
  exact ⟨h.1, h.2 [5, 20] (Image.plain ⟨[1, 10, 40], DType.float32, []⟩) ModeStr.bilinear
    false none none none none true⟩


theorem is_matrix_shaped_spec (m : Mat) (h : is_matrix_shaped m = true) :
    (∀ r ∈ m, r.length = m.length) ∧ (m.length = 3 ∨ m.length = 4) := by
  rw [is_matrix_shaped, Bool.or_eq_true, Bool.and_eq_true, Bool.and_eq_true] at h
  rcases h with ⟨h3, hall⟩ | ⟨h4, hall⟩
  · have hlen : m.length = 3 := by simpa using h3
    rw [List.all_eq_true] at hall
    refine ⟨fun r hr => ?_, Or.inl hlen⟩
    have := hall r hr
    rw [hlen]
    simpa using this
  · have hlen : m.length = 4 := by simpa using h4
    rw [List.all_eq_true] at hall
    refine ⟨fun r hr => ?_, Or.inr hlen⟩
    have := hall r hr
    rw [hlen]
    simpa using this

theorem mapM_matVec_rows (mm : Mat) (l : List Vec)
    (h : ∀ v ∈ l, ∀ r ∈ mm, r.length = v.length) :
    l.mapM (matVec mm) = Except.ok (l.map (fun v => mm.map (fun row => dot row v))) := by
  refine mapM_ok_of_forall l _ _ (fun v hv => ?_)
  rw [matVec, if_pos]
  rw [List.all_eq_true]
  intro r hr
  simpa using h v hv r hr

/-- C8 counterexample: the claim says `transform_shape` accepts any valid
`(K+1) x (K+1)` homogeneous matrix consistent with the input shape, but the
code only accepts 3x3 or 4x4 matrices: for the 1-spatial-dimension shape
`[1, 5]` and the perfectly consistent 2x2 identity matrix, the code raises
the matrix-shape error instead of returning the transformed shape. -/
theorem transform_shape_consistent_2x2_rejected :
    transform_shape [1, 5] [[1, 0], [0, 1]] =
      Except.error (Err.shape "matrix must have a valid 2d or 3d homogenous matrix shape") := by
  rfl

/-- C8 amended: `transform_shape(input_shape, matrix)` raises the ShapeError
exactly when `matrix` is not 3x3 or 4x4 (independently of `input_shape`);
when the matrix passes that check and its size moreover matches the
dimensionality of `input_shape`, the function succeeds, returning the shape
rebuilt from the transformed corner extents. -/
theorem transform_shape_amended (s : List ℤ) (m : Mat) :
    (is_matrix_shaped m = false →
      transform_shape s m =
        Except.error (Err.shape "matrix must have a valid 2d or 3d homogenous matrix shape")) ∧
    (∀ c rest, s = c :: rest → is_matrix_shaped m = true → m.length = rest.length + 1 →
      ∃ out, transform_shape s m = Except.ok out) := by
  constructor
  · intro h
    rw [transform_shape, if_neg (by simp [h])]
  · rintro c rest rfl hshaped hmdim
    obtain ⟨hrows, _⟩ := is_matrix_shaped_spec m hshaped
    set qs : List ℚ := rest.map (fun d : ℤ => (d : ℚ)) with hqs
    have hql : qs.length = rest.length := by rw [hqs]; simp
    have hmap : (extents_from_shape (c :: rest)).mapM (matVec m) =
        Except.ok ((hcorners qs).map (fun v => m.map (fun row => dot row v))) := by
      rw [show extents_from_shape (c :: rest) = hcorners qs from rfl]
      refine mapM_matVec_rows m _ (fun v hv r hr => ?_)
      rw [hrows r hr, hmdim, mem_hcorners_length hv, hql]
    rw [transform_shape, if_pos hshaped, hmap]
    obtain ⟨tail, htail⟩ := cornersQ_head qs
    have hne : (hcorners qs).map (fun v => m.map (fun row => dot row v)) ≠ [] := by
      simp only [ne_eq, List.map_eq_nil_iff, hcorners, htail]
      intro hcontra
      exact List.noConfusion hcontra
    obtain ⟨e2, es2, hes2⟩ := List.exists_cons_of_ne_nil hne
    have hlenall : ∀ x ∈ (hcorners qs).map (fun v => m.map (fun row => dot row v)),
        x.length = rest.length + 1 := by
      intro x hx
      simp only [List.mem_map] at hx
      obtain ⟨v, _, rfl⟩ := hx
      rw [List.length_map, hmdim]
    rw [hes2]
    simp only [shape_from_extents]
    rw [if_pos]
    · exact ⟨_, rfl⟩
    · rw [List.all_eq_true]
      intro x hx
      have := hlenall x (hes2 ▸ hx)
      simpa using this

/-- C8 amended witness: a 3x3 identity on the 2-spatial-dimension shape
`[1, 5, 6]` succeeds, while a 2x2 matrix is rejected by the shape check. -/
theorem transform_shape_amended_witness :
    transform_shape [1, 5] [[1, 0], [0, 1]] =
      Except.error (Err.shape "matrix must have a valid 2d or 3d homogenous matrix shape") ∧
    ∃ out, transform_shape [1, 5, 6] (diagHom [1, 1]) = Except.ok out :=
  ⟨(transform_shape_amended [1, 5] [[1, 0], [0, 1]]).1 (by decide),
    (transform_shape_amended [1, 5, 6] (diagHom [1, 1])).2 1 [5, 6] rfl (by decide) (by decide)⟩


theorem transform_shape_two_rejected (s : List ℤ) (fs : List ℚ) (h : fs.length = 1) :
    transform_shape s (diagHom fs) =
      Except.error (Err.shape "matrix must have a valid 2d or 3d homogenous matrix shape") := by
  have h2 : (diagHom fs).length = 2 := by rw [diagHom_length, h]
  have hnot : ¬ (is_matrix_shaped (diagHom fs) = true) := by
    rw [is_matrix_shaped]
    simp [h2]
  rw [transform_shape, if_neg hnot]

/-- C7 counterexample: the claim quantifies over every spatial dimensionality
K, but on a 1-spatial-dimension input `resize` in "longest" mode raises
instead of predicting `round(d * t / max)`: for shape `[1, 5]` and integer
target 3 the branch computes spatial size `(3,)` and then `transform_shape`
rejects the resulting 2x2 scale matrix (only 3x3 and 4x4 pass the matrix
check), so the call fails with the shape error and produces no
pending-operation record at all. -/
theorem resize_longest_1d_raises :
    resize (Image.plain ⟨[1, 5], DType.float32, []⟩) (ValOrSeq.one 3) "longest"
        ModeStr.bilinear false none none none none true =
      BuildResult.err (Image.plain ⟨[1, 5], DType.float32, []⟩)
        (Err.shape "matrix must have a valid 2d or 3d homogenous matrix shape") ∧
    produced_shape (resize (Image.plain ⟨[1, 5], DType.float32, []⟩) (ValOrSeq.one 3) "longest"
        ModeStr.bilinear false none none none none true) = none := by
  have hlongest : (("longest" : String) == "all") = false := by decide
  have hres : resolved_input_shape none (Image.plain ⟨[1, 5], DType.float32, []⟩) = [1, 5] := rfl
  have hdrop : ([1, 5] : List ℤ).drop 1 = [5] := rfl
  have hts : transform_shape [1, 5]
      (diagHom (List.zipWith (fun (i j : ℤ) => (i : ℚ) / (j : ℚ))
        (List.map (fun s : ℤ => pythonRound ((s : ℚ) * (((3 : ℤ) : ℚ) / (listMax [5] : ℚ)))) [5])
        [5])) =
      Except.error (Err.shape "matrix must have a valid 2d or 3d homogenous matrix shape") :=
    transform_shape_two_rejected _ _ (by simp)
  have hmain : resize (Image.plain ⟨[1, 5], DType.float32, []⟩) (ValOrSeq.one 3) "longest"
      ModeStr.bilinear false none none none none true =
      BuildResult.err (Image.plain ⟨[1, 5], DType.float32, []⟩)
        (Err.shape "matrix must have a valid 2d or 3d homogenous matrix shape") := by
    simp only [resize, convert_to_tensor, hres, hlongest, Bool.false_eq_true, if_false, hdrop,
      look_up_gsm, compatible_scale, hts]
  exact ⟨hmain, by rw [hmain]; rfl⟩

end MSF
